import Mathlib

/-!
Verification development for the personal-note-manager MCP example server
(example 7, OAuth/OIDC authorization).  The request-gatekeeping layer —
Origin/Host validation middleware, role-based authorization, the
confirmation-elicitation protocol around destructive note operations,
Fernet key derivation and the encrypted session store — is shallowly
embedded, and theorems check the design document against the embedding.
-/

namespace NoteMgr

/-!
ASCII case normalization.  The middleware and the role gate apply Python
`str.lower()` to Origin header values, host names and role names; the
relevant alphabets are ASCII, so lowering is modelled on the ASCII range.
-/

def lowerChar (c : Char) : Char :=
  if 65 ≤ c.toNat ∧ c.toNat ≤ 90 then Char.ofNat (c.toNat + 32) else c

def lowerList (l : List Char) : List Char := l.map lowerChar

def lowerStr (s : String) : String := ⟨lowerList s.data⟩

/-!
Model of `urllib.parse.urlparse` restricted to the two projections the
middleware reads, `.scheme` and `.hostname`, following CPython
`urllib.parse`: the scheme is split off at the first `:` when the prefix
is a valid scheme name (leading ASCII letter, then letters, digits, `+`,
`-`, `.`), and is lowercased; the netloc follows a leading `//` and runs
to the next `/`, `?` or `#`; `.hostname` discards userinfo (everything up
to the last `@`), takes a bracketed host between `[` and `]` when one is
present and otherwise stops before a `:port` suffix, lowercases the
result, and is `None` when empty.
-/

def isAsciiAlpha (c : Char) : Bool :=
  decide ((65 ≤ c.toNat ∧ c.toNat ≤ 90) ∨ (97 ≤ c.toNat ∧ c.toNat ≤ 122))

def isAsciiDigit (c : Char) : Bool :=
  decide (48 ≤ c.toNat ∧ c.toNat ≤ 57)

def isSchemeChar (c : Char) : Bool :=
  isAsciiAlpha c || isAsciiDigit c ||
    decide (c = '+') || decide (c = '-') || decide (c = '.')

def validSchemeName : List Char → Bool
  | [] => false
  | c :: rest => isAsciiAlpha c && rest.all isSchemeChar

def splitScheme (l : List Char) : List Char × List Char :=
  if (l.takeWhile fun c => c != ':').length < l.length ∧
      validSchemeName (l.takeWhile fun c => c != ':') = true then
    (lowerList (l.takeWhile fun c => c != ':'),
     l.drop ((l.takeWhile fun c => c != ':').length + 1))
  else ([], l)

def netlocOf : List Char → List Char
  | a :: b :: rest =>
      if a = '/' ∧ b = '/' then
        rest.takeWhile fun c => c != '/' && c != '?' && c != '#'
      else []
  | _ => []

def afterLastAt (l : List Char) : List Char :=
  (l.reverse.takeWhile fun c => c != '@').reverse

def hostOfNetloc (netloc : List Char) : Option (List Char) :=
  if '[' ∈ afterLastAt netloc then
    if (((afterLastAt netloc).dropWhile fun c => c != '[').drop 1).takeWhile
        (fun c => c != ']') = [] then none
    else
      some (lowerList ((((afterLastAt netloc).dropWhile fun c => c != '[').drop 1).takeWhile
        fun c => c != ']'))
  else
    if (afterLastAt netloc).takeWhile (fun c => c != ':') = [] then none
    else some (lowerList ((afterLastAt netloc).takeWhile fun c => c != ':'))

structure UrlParts where
  scheme : List Char
  hostname : Option (List Char)
deriving DecidableEq

def urlparse (l : List Char) : UrlParts :=
  { scheme := (splitScheme l).1, hostname := hostOfNetloc (netlocOf (splitScheme l).2) }

/-!
Origin/Host validation middleware, `app/security/middleware.py`.

The header lookup is `headers.get(b"origin")` followed by `if origin:` —
a Python truthiness test, which is false both when the header is absent
(`None`) and when it is present with an empty value (`b""` is falsy), so
an empty-valued Origin header skips validation entirely and the request
is forwarded.  The embedding keeps both escape cases: `none` for an
absent header and the empty string for a present-but-empty one.

Note the import in that file: `from http.client import HTTPException` —
the exception raised on a rejected Origin is `http.client.HTTPException`,
not a Starlette (or FastAPI) HTTP exception.  The embedding records which
exception class is raised, and models the enclosing Starlette stack's
exception handling: `starlette.exceptions.HTTPException` is converted by
the exception middleware into a response carrying its status code, while
any other exception propagates to `ServerErrorMiddleware`, which produces
a plain 500 response.
-/

inductive RaisedExc where
  | httpClientHTTPException (status : Nat) (detail : String)
  | starletteHTTPException (status : Nat) (detail : String)
deriving DecidableEq

def surfacedStatus : RaisedExc → Nat
  | .starletteHTTPException s _ => s
  | .httpClientHTTPException _ _ => 500

def hostnameAllowed (h : Option (List Char)) (hosts : List (List Char)) : Bool :=
  match h with
  | some hn => decide (hn ∈ hosts)
  | none => false

def hostOriginCall (allowedHosts : List String) (scopeType : String)
    (origin : Option String) : Except RaisedExc Unit :=
  if scopeType = "http" then
    match origin with
    | none => .ok ()
    | some o =>
        if o = "" then .ok ()
        else
          let parsed := urlparse (lowerList o.data)
          if ¬ (parsed.scheme = "http".data ∨ parsed.scheme = "https".data) then
            .error (.httpClientHTTPException 403 "Invalid Origin")
          else if ¬ hostnameAllowed parsed.hostname
              (allowedHosts.map fun h => lowerList h.data) then
            .error (.httpClientHTTPException 403 "Invalid Origin")
          else .ok ()
  else .ok ()

def middlewareForwards (allowedHosts : List String) (scopeType : String)
    (origin : Option String) : Bool :=
  match hostOriginCall allowedHosts scopeType origin with
  | .ok _ => true
  | .error _ => false

/--
The origin decision exactly as the design document words it: no Origin
header means allow; an Origin whose parsed scheme is neither http nor
https is rejected; otherwise the lower-cased hostname is tested for
membership in the lower-cased allow-list.
-/
def originAllowedSpec (origin : Option String) (allowList : List String) : Bool :=
  match origin with
  | none => true
  | some s =>
      let p := urlparse s.data
      if p.scheme = "http".data ∨ p.scheme = "https".data then
        match p.hostname with
        | some h => decide (lowerList h ∈ allowList.map fun a => lowerList a.data)
        | none => false
      else false

/--
The origin decision amended by the single case the code forces: an Origin
header that is present but has an empty value is treated like an absent
header (Python's truthiness test) and allowed regardless of the
allow-list; every other input is decided exactly as `originAllowedSpec`.
-/
def originAllowedSpecAmended (origin : Option String) (allowList : List String) : Bool :=
  match origin with
  | none => true
  | some s => if s = "" then true else originAllowedSpec (some s) allowList

/-!
Middleware registration order, `main.py`.  `configure_middleware` calls
`app.add_middleware` twice on the Starlette application returned by
`mcp.http_app()`.  Starlette's `add_middleware` does
`self.user_middleware.insert(0, ...)`, and `build_middleware_stack` wraps
the application so that the first entry of `user_middleware` becomes the
outermost middleware: the last `add_middleware` call is the one that runs
first on every inbound request.
-/

inductive MiddlewareComponent where
  | hostOriginValidation
  | cors
deriving DecidableEq

def addMiddleware (user : List MiddlewareComponent) (m : MiddlewareComponent) :
    List MiddlewareComponent := m :: user

def configure_middleware (user : List MiddlewareComponent) : List MiddlewareComponent :=
  addMiddleware (addMiddleware user .hostOriginValidation) .cors

/-- Outermost-first execution order of the user middleware configured by
`configure_middleware` on a fresh application. -/
def requestExecutionOrder : List MiddlewareComponent := configure_middleware []

/-!
Role authorization, `app/security/auth.py`.  `has_role(role)` returns a
closure `check(ctx)`; the embedding flattens the closure into a two
argument function.  `check` reads
`ctx.token.claims.get("realm_access", {}).get("roles", [])`, so both the
`realm_access` claim and its `roles` entry may be absent.
-/

structure RealmAccess where
  roles : Option (List String)

structure TokenClaims where
  realm_access : Option RealmAccess

structure AccessToken where
  claims : TokenClaims

structure AuthContext where
  token : AccessToken

def claimRoles (ctx : AuthContext) : List String :=
  match ctx.token.claims.realm_access with
  | some ra => ra.roles.getD []
  | none => []

def has_role (role : String) (ctx : AuthContext) : Bool :=
  decide (lowerStr role ∈ (claimRoles ctx).map lowerStr)

/-- The role gate as the design document words it: the required role,
lower-cased, must be a member of the identity context's role-claim set,
each claim lower-cased before comparison. -/
def authorizeSpec (requiredRole : String) (identityRoles : List String) : Bool :=
  decide (lowerStr requiredRole ∈ identityRoles.map lowerStr)

/-!
Note service, `app/services/note_service.py`.  The notes file is modelled
as `Option (List String)`: `none` when the file does not exist, and
`some lines` for the list Python `readlines()` returns (each line keeps
its trailing newline).  Python `contained_text in line` is substring
containment.
-/

def startsWithCS : List Char → List Char → Bool
  | [], _ => true
  | _ :: _, [] => false
  | n :: ns, h :: hs => n == h && startsWithCS ns hs

def containsSub (hay needle : List Char) : Bool :=
  match hay with
  | [] => startsWithCS needle []
  | c :: t => startsWithCS needle (c :: t) || containsSub t needle

def strContains (hay needle : String) : Bool := containsSub hay.data needle.data

structure ServiceResponse where
  status : String
  message : String
  deleted : Option Nat := none
deriving DecidableEq

def NoteService.delete_all_notes (fs : Option (List String)) :
    ServiceResponse × Option (List String) :=
  match fs with
  | some _ =>
      ({ status := "success", message := "All notes have been deleted." }, some [])
  | none =>
      ({ status := "success", message := "All notes have been deleted." }, none)

def NoteService.delete_notes_containing (containedText : String)
    (fs : Option (List String)) : ServiceResponse × Option (List String) :=
  match fs with
  | none =>
      ({ status := "success", message := "No notes file found. Nothing to delete." }, none)
  | some lines =>
      let remaining := lines.filter fun line => !(strContains line containedText)
      let deletedCount := lines.length - remaining.length
      ({ status := "success",
         deleted := some deletedCount,
         message := "Deleted " ++ toString deletedCount ++ " note(s) containing \x27"
           ++ containedText ++ "\x27." },
       some remaining)

/-!
Elicitation outcomes and the guarded delete routes,
`app/mcp_endpoints/routes.py`.  fastmcp's `ctx.elicit` resolves to an
`AcceptedElicitation` (carrying the typed payload, here a `bool`), a
`DeclinedElicitation` or a `CancelledElicitation`; their `action`
attributes are the strings "accept", "decline" and "cancel".  The
`malformed` constructor stands for a protocol-level malformed outcome
outside this closed union; a well-formed such value carries an action
string that is none of the three.  `delete_all_notes` dispatches on the
`action` string and on `result.data is True` / `is False`;
`delete_note` pattern-matches on the outcome class and has no wildcard
case, so a fall-through produces Python's implicit `None` return,
modelled as `response := none`.
-/

inductive ElicitOutcome where
  | accepted (data : Option Bool)
  | declined
  | cancelled
  | malformed (action : String) (data : Option Bool)
deriving DecidableEq

def ElicitOutcome.action : ElicitOutcome → String
  | .accepted _ => "accept"
  | .declined => "decline"
  | .cancelled => "cancel"
  | .malformed a _ => a

def ElicitOutcome.payload : ElicitOutcome → Option Bool
  | .accepted d => d
  | .malformed _ d => d
  | _ => none

def ElicitOutcome.wf : ElicitOutcome → Prop
  | .malformed a _ => a ≠ "accept" ∧ a ≠ "decline" ∧ a ≠ "cancel"
  | _ => True

structure RouteResult where
  response : Option ServiceResponse
  fileState : Option (List String)
  serviceCalls : Nat
deriving DecidableEq

def delete_all_notes_route (e : ElicitOutcome) (fs : Option (List String)) : RouteResult :=
  if e.action = "accept" ∧ e.payload = some true then
    { response := some (NoteService.delete_all_notes fs).1,
      fileState := (NoteService.delete_all_notes fs).2, serviceCalls := 1 }
  else if e.action = "accept" ∧ e.payload = some false then
    { response := some { status := "cancelled", message := "Deletion not confirmed by user." },
      fileState := fs, serviceCalls := 0 }
  else if e.action = "decline" then
    { response := some { status := "cancelled", message := "Deletion declined by user." },
      fileState := fs, serviceCalls := 0 }
  else if e.action = "cancel" then
    { response := some { status := "cancelled", message := "Deletion cancelled by user." },
      fileState := fs, serviceCalls := 0 }
  else
    { response := some { status := "error", message := "Invalid confirmation response." },
      fileState := fs, serviceCalls := 0 }

def delete_note_route (containedText : String) (e : ElicitOutcome)
    (fs : Option (List String)) : RouteResult :=
  match e with
  | .accepted d =>
      if d = some true then
        { response := some (NoteService.delete_notes_containing containedText fs).1,
          fileState := (NoteService.delete_notes_containing containedText fs).2,
          serviceCalls := 1 }
      else
        { response := some { status := "cancelled", message := "Deletion declined by user." },
          fileState := fs, serviceCalls := 0 }
  | .declined =>
      { response := some { status := "cancelled", message := "Deletion declined by user." },
        fileState := fs, serviceCalls := 0 }
  | .cancelled =>
      { response := some { status := "cancelled", message := "Deletion cancelled by user." },
        fileState := fs, serviceCalls := 0 }
  | .malformed _ _ =>
      { response := none, fileState := fs, serviceCalls := 0 }

/-!
Key derivation, `app/config.py`.  `Config.derive_fernet_key` computes
`base64.urlsafe_b64encode(hashlib.sha256(input_string.encode()).digest())`.
SHA-256 (FIPS 180-4) is embedded executably: bytes are `Nat`s below 256,
32-bit words are `Nat`s reduced modulo 2 ^ 32, and the secret is UTF-8
encoded by the standard code-point ranges.
-/

def w32 (n : Nat) : Nat := n % 4294967296

def rotr32 (k x : Nat) : Nat := w32 ((x >>> k) ||| (x <<< (32 - k)))

def bSig0 (x : Nat) : Nat := (rotr32 2 x) ^^^ (rotr32 13 x) ^^^ (rotr32 22 x)

def bSig1 (x : Nat) : Nat := (rotr32 6 x) ^^^ (rotr32 11 x) ^^^ (rotr32 25 x)

def sSig0 (x : Nat) : Nat := (rotr32 7 x) ^^^ (rotr32 18 x) ^^^ (x >>> 3)

def sSig1 (x : Nat) : Nat := (rotr32 17 x) ^^^ (rotr32 19 x) ^^^ (x >>> 10)

def shaK : List Nat :=
  [1116352408, 1899447441, 3049323471, 3921009573, 961987163, 1508970993, 2453635748, 2870763221,
   3624381080, 310598401, 607225278, 1426881987, 1925078388, 2162078206, 2614888103, 3248222580,
   3835390401, 4022224774, 264347078, 604807628, 770255983, 1249150122, 1555081692, 1996064986,
   2554220882, 2821834349, 2952996808, 3210313671, 3336571891, 3584528711, 113926993, 338241895,
   666307205, 773529912, 1294757372, 1396182291, 1695183700, 1986661051, 2177026350, 2456956037,
   2730485921, 2820302411, 3259730800, 3345764771, 3516065817, 3600352804, 4094571909, 275423344,
   430227734, 506948616, 659060556, 883997877, 958139571, 1322822218, 1537002063, 1747873779,
   1955562222, 2024104815, 2227730452, 2361852424, 2428436474, 2756734187, 3204031479, 3329325298]

def padMessage (msg : List Nat) : List Nat :=
  let bitLen := 8 * msg.length
  msg ++ [128] ++ List.replicate ((64 - ((msg.length + 9) % 64)) % 64) 0 ++
    [(bitLen >>> 56) % 256, (bitLen >>> 48) % 256, (bitLen >>> 40) % 256,
     (bitLen >>> 32) % 256, (bitLen >>> 24) % 256, (bitLen >>> 16) % 256,
     (bitLen >>> 8) % 256, bitLen % 256]

def toBlocks : List Nat → List (List Nat)
  | [] => []
  | c :: rest => List.take 64 (c :: rest) :: toBlocks (List.drop 64 (c :: rest))
termination_by l => l.length
decreasing_by simp only [List.length_drop]; simp; omega

def wordsOf : List Nat → List Nat
  | a :: b :: c :: d :: rest => (((a * 256 + b) * 256 + c) * 256 + d) :: wordsOf rest
  | _ => []

def scheduleStep (w : List Nat) : List Nat :=
  w ++ [w32 (sSig1 (w.getD (w.length - 2) 0) + w.getD (w.length - 7) 0 +
             sSig0 (w.getD (w.length - 15) 0) + w.getD (w.length - 16) 0)]

def schedule (w : List Nat) : List Nat :=
  (List.range 48).foldl (fun acc _ => scheduleStep acc) w

structure Hash8 where
  a : Nat
  b : Nat
  c : Nat
  d : Nat
  e : Nat
  f : Nat
  g : Nat
  h : Nat
deriving DecidableEq

def shaRound (st : Hash8) (kw : Nat × Nat) : Hash8 :=
  let ch := (st.e &&& st.f) ^^^ ((st.e ^^^ 4294967295) &&& st.g)
  let t1 := w32 (st.h + bSig1 st.e + ch + kw.1 + kw.2)
  let maj := (st.a &&& st.b) ^^^ (st.a &&& st.c) ^^^ (st.b &&& st.c)
  let t2 := w32 (bSig0 st.a + maj)
  { a := w32 (t1 + t2), b := st.a, c := st.b, d := st.c,
    e := w32 (st.d + t1), f := st.e, g := st.f, h := st.g }

def compressBlock (st : Hash8) (block : List Nat) : Hash8 :=
  let fin := ((shaK.zip (schedule (wordsOf block)))).foldl shaRound st
  { a := w32 (st.a + fin.a), b := w32 (st.b + fin.b), c := w32 (st.c + fin.c),
    d := w32 (st.d + fin.d), e := w32 (st.e + fin.e), f := w32 (st.f + fin.f),
    g := w32 (st.g + fin.g), h := w32 (st.h + fin.h) }

def sha256Words (msg : List Nat) : Hash8 :=
  (toBlocks (padMessage msg)).foldl compressBlock
    { a := 1779033703, b := 3144134277, c := 1013904242, d := 2773480762,
      e := 1359893119, f := 2600822924, g := 528734635, h := 1541459225 }

def sha256Bytes (msg : List Nat) : List Nat :=
  [(sha256Words msg).a >>> 24 % 256, (sha256Words msg).a >>> 16 % 256,
   (sha256Words msg).a >>> 8 % 256, (sha256Words msg).a % 256,
   (sha256Words msg).b >>> 24 % 256, (sha256Words msg).b >>> 16 % 256,
   (sha256Words msg).b >>> 8 % 256, (sha256Words msg).b % 256,
   (sha256Words msg).c >>> 24 % 256, (sha256Words msg).c >>> 16 % 256,
   (sha256Words msg).c >>> 8 % 256, (sha256Words msg).c % 256,
   (sha256Words msg).d >>> 24 % 256, (sha256Words msg).d >>> 16 % 256,
   (sha256Words msg).d >>> 8 % 256, (sha256Words msg).d % 256,
   (sha256Words msg).e >>> 24 % 256, (sha256Words msg).e >>> 16 % 256,
   (sha256Words msg).e >>> 8 % 256, (sha256Words msg).e % 256,
   (sha256Words msg).f >>> 24 % 256, (sha256Words msg).f >>> 16 % 256,
   (sha256Words msg).f >>> 8 % 256, (sha256Words msg).f % 256,
   (sha256Words msg).g >>> 24 % 256, (sha256Words msg).g >>> 16 % 256,
   (sha256Words msg).g >>> 8 % 256, (sha256Words msg).g % 256,
   (sha256Words msg).h >>> 24 % 256, (sha256Words msg).h >>> 16 % 256,
   (sha256Words msg).h >>> 8 % 256, (sha256Words msg).h % 256]

def utf8Char (c : Char) : List Nat :=
  let n := c.toNat
  if n < 128 then [n]
  else if n < 2048 then [192 + n / 64, 128 + n % 64]
  else if n < 65536 then [224 + n / 4096, 128 + (n / 64) % 64, 128 + n % 64]
  else [240 + n / 262144, 128 + (n / 4096) % 64, 128 + (n / 64) % 64, 128 + n % 64]

def utf8Encode (s : String) : List Nat := (s.data.map utf8Char).flatten

def b64Alphabet : List Char :=
  "ABCDEFGHIJKLMNOPQRSTUVWXYZabcdefghijklmnopqrstuvwxyz0123456789-_".data

def b64Char (n : Nat) : Char := b64Alphabet.getD n 'A'

def urlsafe_b64encode : List Nat → List Char
  | b1 :: b2 :: b3 :: rest =>
      b64Char (b1 / 4) :: b64Char ((b1 % 4) * 16 + b2 / 16) ::
        b64Char ((b2 % 16) * 4 + b3 / 64) :: b64Char (b3 % 64) :: urlsafe_b64encode rest
  | [b1, b2] =>
      [b64Char (b1 / 4), b64Char ((b1 % 4) * 16 + b2 / 16), b64Char ((b2 % 16) * 4), '=']
  | [b1] => [b64Char (b1 / 4), b64Char ((b1 % 4) * 16), '=', '=']
  | [] => []

def Config.derive_fernet_key (input_string : String) : List Char :=
  urlsafe_b64encode (sha256Bytes (utf8Encode input_string))

/-- Strings of `n` letters a, an injective family used to instantiate the
pigeonhole argument about the key-derivation function. -/
def aString (n : Nat) : String := ⟨List.replicate n 'a'⟩

/-- The base-256 value of a digest, mapping byte lists injectively (at a
fixed length and with bytes below 256) into an initial segment of `Nat`. -/
def digestNat (l : List Nat) : Nat := l.foldr (fun b acc => b + 256 * acc) 0

/-!
Symmetric encryption unit and encrypted store wrapper, `app/storage.py`.

Modelled from the spec: the cipher itself is `cryptography.fernet.Fernet`
and the store wrapper is `key_value.aio.wrappers.encryption.
FernetEncryptionWrapper`, both external libraries whose code is not part
of this repository; `app/storage.py` only wires them together.  Section
4.1 of the design document specifies the contract — authenticated
symmetric encryption: `encrypt`/`decrypt` round-trip exactly, and
`decrypt` fails with `DecryptionError` on tampered or foreign-key
ciphertext.  The model realizes that contract with an idealized
authenticated cipher: the body is the payload XORed with a keystream
derived from the key, and the tag is an ideal MAC, modelled as the
(key, body) pair itself, which `decrypt` verifies before decrypting.
-/

inductive DecryptionError where
  | decryptionError
deriving DecidableEq

structure FernetToken where
  body : List Nat
  tag : List Nat × List Nat
deriving DecidableEq

def keystreamAt (key : List Nat) (i : Nat) : Nat :=
  match key with
  | [] => 0
  | _ :: _ => key.getD (i % key.length) 0

def xorStream (key : List Nat) : Nat → List Nat → List Nat
  | _, [] => []
  | i, b :: rest => (b ^^^ keystreamAt key i) :: xorStream key (i + 1) rest

/-- Modelled from the spec: `encrypt(key, plaintext) -> ciphertext` of the
authenticated symmetric cipher (section 4.1). -/
def FernetModel.encrypt (key p : List Nat) : FernetToken :=
  { body := xorStream key 0 p, tag := (key, xorStream key 0 p) }

/-- Modelled from the spec: `decrypt(key, ciphertext) -> plaintext`,
failing with `DecryptionError` when the authentication tag does not
verify under the presented key (section 4.1). -/
def FernetModel.decrypt (key : List Nat) (c : FernetToken) :
    Except DecryptionError (List Nat) :=
  if c.tag = (key, c.body) then .ok (xorStream key 0 c.body) else .error .decryptionError

/-- Modelled from the spec: the encryption wrapper's `get`, which reads
the underlying store and decrypts, surfacing `DecryptionError` upward
unmodified (section 4.2). -/
def FernetEncryptionWrapper.get (store : String → Option FernetToken)
    (key : List Nat) (k : String) : Except DecryptionError (Option (List Nat)) :=
  match store k with
  | none => .ok none
  | some c =>
      match FernetModel.decrypt key c with
      | .ok p => .ok (some p)
      | .error e => .error e

/-!
Helper lemmas: ASCII lowering.
-/

theorem charOfNat_toNat (n : Nat) (h : n < 55296) : (Char.ofNat n).toNat = n := by
  unfold Char.ofNat
  rw [dif_pos (Or.inl h)]
  rfl

theorem lowerChar_spec (c : Char) (h : 65 ≤ c.toNat ∧ c.toNat ≤ 90) :
    (lowerChar c).toNat = c.toNat + 32 := by
  unfold lowerChar
  rw [if_pos h]
  exact charOfNat_toNat _ (by omega)

theorem lowerChar_fix (c : Char) (h : ¬(65 ≤ c.toNat ∧ c.toNat ≤ 90)) :
    lowerChar c = c := by
  unfold lowerChar
  rw [if_neg h]

theorem lowerChar_idem (c : Char) : lowerChar (lowerChar c) = lowerChar c := by
  by_cases h : 65 ≤ c.toNat ∧ c.toNat ≤ 90
  · have h2 := lowerChar_spec c h
    exact lowerChar_fix _ (by rw [h2]; omega)
  · rw [lowerChar_fix c h]
    exact lowerChar_fix c h

theorem lowerList_cons (c : Char) (l : List Char) :
    lowerList (c :: l) = lowerChar c :: lowerList l := rfl

theorem lowerList_length (l : List Char) : (lowerList l).length = l.length := by
  simp [lowerList]

theorem lowerList_idem (l : List Char) : lowerList (lowerList l) = lowerList l := by
  simp only [lowerList, List.map_map]
  exact List.map_congr_left fun a _ => lowerChar_idem a

theorem lowerChar_eq_iff (c d : Char)
    (hd : d.toNat < 65 ∨ (90 < d.toNat ∧ d.toNat < 97) ∨ 122 < d.toNat) :
    lowerChar c = d ↔ c = d := by
  by_cases h : 65 ≤ c.toNat ∧ c.toNat ≤ 90
  · have h2 := lowerChar_spec c h
    constructor
    · intro he
      have h3 := congrArg Char.toNat he
      rw [h2] at h3
      exact absurd h3 (by omega)
    · intro he
      subst he
      exact absurd hd (by omega)
  · rw [lowerChar_fix c h]

theorem beq_lower (c d : Char)
    (hd : d.toNat < 65 ∨ (90 < d.toNat ∧ d.toNat < 97) ∨ 122 < d.toNat) :
    (lowerChar c == d) = (c == d) := by
  rw [Bool.eq_iff_iff]
  simp only [beq_iff_eq]
  exact lowerChar_eq_iff c d hd

theorem bne_lower (c d : Char)
    (hd : d.toNat < 65 ∨ (90 < d.toNat ∧ d.toNat < 97) ∨ 122 < d.toNat) :
    (lowerChar c != d) = (c != d) := by
  simp only [bne, beq_lower c d hd]

theorem decide_eq_lower (c d : Char)
    (hd : d.toNat < 65 ∨ (90 < d.toNat ∧ d.toNat < 97) ∨ 122 < d.toNat) :
    decide (lowerChar c = d) = decide (c = d) := by
  simp only [decide_eq_decide]
  exact lowerChar_eq_iff c d hd

theorem takeWhile_lower (p : Char → Bool) (hp : ∀ c, p (lowerChar c) = p c)
    (l : List Char) : (lowerList l).takeWhile p = lowerList (l.takeWhile p) := by
  unfold lowerList
  rw [List.takeWhile_map, show p ∘ lowerChar = p from funext hp]

theorem dropWhile_lower (p : Char → Bool) (hp : ∀ c, p (lowerChar c) = p c)
    (l : List Char) : (lowerList l).dropWhile p = lowerList (l.dropWhile p) := by
  unfold lowerList
  rw [List.dropWhile_map, show p ∘ lowerChar = p from funext hp]

theorem all_lower (p : Char → Bool) (hp : ∀ c, p (lowerChar c) = p c)
    (l : List Char) : (lowerList l).all p = l.all p := by
  unfold lowerList
  rw [List.all_map, show p ∘ lowerChar = p from funext hp]

theorem drop_lower (k : Nat) (l : List Char) :
    (lowerList l).drop k = lowerList (l.drop k) := by
  unfold lowerList
  rw [List.map_drop]

theorem mem_lower (d : Char)
    (hd : d.toNat < 65 ∨ (90 < d.toNat ∧ d.toNat < 97) ∨ 122 < d.toNat)
    (l : List Char) : d ∈ lowerList l ↔ d ∈ l := by
  unfold lowerList
  simp only [List.mem_map]
  constructor
  · rintro ⟨a, ha, hae⟩
    rwa [← (lowerChar_eq_iff a d hd).mp hae]
  · intro h
    exact ⟨d, h, (lowerChar_eq_iff d d hd).mpr rfl⟩

theorem isAsciiAlpha_lower (c : Char) : isAsciiAlpha (lowerChar c) = isAsciiAlpha c := by
  by_cases h : 65 ≤ c.toNat ∧ c.toNat ≤ 90
  · have h2 := lowerChar_spec c h
    simp only [isAsciiAlpha, h2, decide_eq_decide]
    omega
  · rw [lowerChar_fix c h]

theorem isAsciiDigit_lower (c : Char) : isAsciiDigit (lowerChar c) = isAsciiDigit c := by
  by_cases h : 65 ≤ c.toNat ∧ c.toNat ≤ 90
  · have h2 := lowerChar_spec c h
    simp only [isAsciiDigit, h2, decide_eq_decide]
    omega
  · rw [lowerChar_fix c h]

theorem isSchemeChar_lower (c : Char) : isSchemeChar (lowerChar c) = isSchemeChar c := by
  unfold isSchemeChar
  rw [isAsciiAlpha_lower, isAsciiDigit_lower, decide_eq_lower c '+' (by decide),
    decide_eq_lower c '-' (by decide), decide_eq_lower c '.' (by decide)]

theorem validSchemeName_lower (l : List Char) :
    validSchemeName (lowerList l) = validSchemeName l := by
  cases l with
  | nil => rfl
  | cons c rest =>
      rw [lowerList_cons]
      simp only [validSchemeName]
      rw [isAsciiAlpha_lower, all_lower isSchemeChar isSchemeChar_lower rest]

/-!
Helper lemmas: `urlparse` commutes with lowering the input string, since
the scheme and hostname it returns are already lowercased and the
delimiter characters are untouched by ASCII lowering.
-/

theorem splitScheme_lower (l : List Char) :
    splitScheme (lowerList l) = ((splitScheme l).1, lowerList (splitScheme l).2) := by
  have hpre := takeWhile_lower (fun c => c != ':') (fun c => bne_lower c ':' (by decide)) l
  by_cases hC : (l.takeWhile fun c => c != ':').length < l.length ∧
      validSchemeName (l.takeWhile fun c => c != ':') = true
  · unfold splitScheme
    rw [hpre, lowerList_length, lowerList_length, validSchemeName_lower]
    rw [if_pos hC, if_pos hC, lowerList_idem, drop_lower]
  · unfold splitScheme
    rw [hpre, lowerList_length, lowerList_length, validSchemeName_lower]
    rw [if_neg hC, if_neg hC]

theorem netlocOf_lower (r : List Char) : netlocOf (lowerList r) = lowerList (netlocOf r) := by
  cases r with
  | nil => rfl
  | cons a t =>
      cases t with
      | nil => rfl
      | cons b rest =>
          rw [lowerList_cons, lowerList_cons]
          simp only [netlocOf]
          have hcond : (lowerChar a = '/' ∧ lowerChar b = '/') ↔ (a = '/' ∧ b = '/') := by
            rw [lowerChar_eq_iff a '/' (by decide), lowerChar_eq_iff b '/' (by decide)]
          by_cases hab : a = '/' ∧ b = '/'
          · rw [if_pos (hcond.mpr hab), if_pos hab]
            exact takeWhile_lower _
              (fun c => by
                simp only [bne_lower c '/' (by decide), bne_lower c '?' (by decide),
                  bne_lower c '#' (by decide)]) rest
          · rw [if_neg (fun h => hab (hcond.mp h)), if_neg hab]
            rfl

theorem afterLastAt_lower (l : List Char) :
    afterLastAt (lowerList l) = lowerList (afterLastAt l) := by
  unfold afterLastAt
  have h1 : (lowerList l).reverse = lowerList l.reverse := by
    simp [lowerList, List.map_reverse]
  rw [h1, takeWhile_lower _ (fun c => bne_lower c '@' (by decide)) l.reverse]
  simp only [lowerList]
  exact (List.map_reverse lowerChar _).symm

theorem tail_lower (x : List Char) :
    (if lowerList x = [] then none else some (lowerList (lowerList x))) =
      (if x = [] then none else some (lowerList x)) := by
  by_cases hx : x = []
  · subst hx
    rfl
  · rw [if_neg hx, if_neg (by simpa [lowerList] using hx), lowerList_idem]

theorem hostOfNetloc_lower (nl : List Char) :
    hostOfNetloc (lowerList nl) = hostOfNetloc nl := by
  unfold hostOfNetloc
  rw [afterLastAt_lower]
  have hmem := mem_lower '[' (by decide) (afterLastAt nl)
  by_cases hbr : '[' ∈ afterLastAt nl
  · rw [if_pos (hmem.mpr hbr), if_pos hbr]
    rw [dropWhile_lower _ (fun c => bne_lower c '[' (by decide)), drop_lower,
      takeWhile_lower _ (fun c => bne_lower c ']' (by decide))]
    exact tail_lower _
  · rw [if_neg (fun h => hbr (hmem.mp h)), if_neg hbr]
    rw [takeWhile_lower _ (fun c => bne_lower c ':' (by decide))]
    exact tail_lower _

theorem urlparse_lower (l : List Char) : urlparse (lowerList l) = urlparse l := by
  simp only [urlparse, splitScheme_lower, netlocOf_lower, hostOfNetloc_lower]

theorem urlparse_hostname_fix (l : List Char) (h : List Char)
    (hh : (urlparse l).hostname = some h) : lowerList h = h := by
  unfold urlparse hostOfNetloc at hh
  simp only at hh
  split at hh
  · split at hh
    · exact absurd hh (by simp)
    · rw [← Option.some_inj.mp hh, lowerList_idem]
  · split at hh
    · exact absurd hh (by simp)
    · rw [← Option.some_inj.mp hh, lowerList_idem]

/--
C3 counterexample: the claimed decision function rejects any present
Origin whose parsed scheme is not http/https, which covers an Origin
header with an empty value; but the middleware's `if origin:` is a
truthiness test, so the code skips validation for the empty value and
forwards the request regardless of the allow-list.  At Origin "" against
allow-list ["localhost"] the middleware forwards while the claimed
function rejects.
-/
theorem origin_decision_fails_on_empty_origin :
    middlewareForwards ["localhost"] "http" (some "") = true ∧
    originAllowedSpec (some "") ["localhost"] = false ∧
    middlewareForwards ["localhost"] "http" (some "") ≠
      originAllowedSpec (some "") ["localhost"] := by
  refine ⟨rfl, rfl, by decide⟩

/--
C3 amended: the origin-validation decision is a total function of the
Origin header and the allow-list: no Origin header — or an Origin header
present with an empty value, which Python's truthiness test treats like
an absent one — means allow regardless of the allow-list; otherwise a
parsed scheme other than http/https means reject; otherwise the request
is allowed iff the lower-cased hostname is a member of the lower-cased
allow-list set.  The middleware (which lowercases the raw header before
parsing) agrees with this amended spec-side decision function (which
parses the raw header and lowercases the parsed hostname) on every
input.
-/
theorem origin_decision_matches_spec_amended (origin : Option String)
    (hosts : List String) :
    middlewareForwards hosts "http" origin = originAllowedSpecAmended origin hosts := by
  cases origin with
  | none => rfl
  | some s =>
      by_cases hs : s = ""
      · subst hs
        rfl
      · have hspec : originAllowedSpecAmended (some s) hosts =
            originAllowedSpec (some s) hosts := by
          simp only [originAllowedSpecAmended]
          rw [if_neg hs]
        rw [hspec]
        have hcall : hostOriginCall hosts "http" (some s) =
            (if ¬ ((urlparse s.data).scheme = "http".data ∨
                (urlparse s.data).scheme = "https".data) then
              Except.error (RaisedExc.httpClientHTTPException 403 "Invalid Origin")
            else if ¬ hostnameAllowed (urlparse s.data).hostname
                (hosts.map fun h => lowerList h.data) = true then
              Except.error (RaisedExc.httpClientHTTPException 403 "Invalid Origin")
            else Except.ok ()) := by
          unfold hostOriginCall
          rw [if_pos rfl]
          simp only [if_neg hs, urlparse_lower]
        by_cases hsch : (urlparse s.data).scheme = "http".data ∨
            (urlparse s.data).scheme = "https".data
        · rw [if_neg (not_not_intro hsch)] at hcall
          cases hhn : (urlparse s.data).hostname with
          | none =>
              rw [hhn] at hcall
              rw [if_pos (by simp [hostnameAllowed])] at hcall
              simp only [middlewareForwards, hcall, originAllowedSpec]
              rw [if_pos hsch, hhn]
          | some h =>
              rw [hhn] at hcall
              have hfix := urlparse_hostname_fix s.data h hhn
              by_cases hm : h ∈ hosts.map fun a => lowerList a.data
              · rw [if_neg (by simp [hostnameAllowed, hm])] at hcall
                simp only [middlewareForwards, hcall, originAllowedSpec]
                rw [if_pos hsch, hhn]
                simp [hfix, hm]
              · rw [if_pos (by simp [hostnameAllowed, hm])] at hcall
                simp only [middlewareForwards, hcall, originAllowedSpec]
                rw [if_pos hsch, hhn]
                simp [hfix, hm]
        · rw [if_pos hsch] at hcall
          simp only [middlewareForwards, hcall, originAllowedSpec]
          rw [if_neg hsch]

/--
C1: contrary to the claim, the configured pipeline does not run the
Origin/Host validation middleware first.  `configure_middleware` adds the
host-origin middleware first and CORS second, and Starlette's
`add_middleware` prepends, so the CORS middleware is outermost and every
request reaches it before origin validation.
-/
theorem middleware_order_cors_first :
    requestExecutionOrder =
      [MiddlewareComponent.cors, MiddlewareComponent.hostOriginValidation] ∧
    requestExecutionOrder.head? ≠ some MiddlewareComponent.hostOriginValidation := by
  constructor
  · rfl
  · decide

/--
C2: on a failing Origin the middleware does terminate the request before
the inner application, but it raises `http.client.HTTPException` (a wrong
import), which the server stack surfaces as a 500 internal error rather
than a 403-equivalent forbidden response.
-/
theorem origin_reject_wrong_exception :
    hostOriginCall ["localhost"] "http" (some "http://evil.example") =
      Except.error (RaisedExc.httpClientHTTPException 403 "Invalid Origin") ∧
    surfacedStatus (RaisedExc.httpClientHTTPException 403 "Invalid Origin") = 500 ∧
    surfacedStatus (RaisedExc.httpClientHTTPException 403 "Invalid Origin") ≠ 403 := by
  refine ⟨rfl, rfl, by decide⟩

/--
C10: the middleware inspects only ASGI scopes of type "http"; any other
scope type is forwarded to the inner application unconditionally, with no
origin validation, whatever the allow-list and Origin header are.
-/
theorem non_http_scope_forwarded (scopeType : String) (h : scopeType ≠ "http")
    (allowedHosts : List String) (origin : Option String) :
    hostOriginCall allowedHosts scopeType origin = Except.ok () := by
  unfold hostOriginCall
  rw [if_neg h]

/-- Witness for the non-http-scope theorem: a websocket scope carrying a
disallowed Origin is still forwarded. -/
theorem non_http_scope_forwarded_witness :
    "websocket" ≠ "http" ∧
      hostOriginCall ["localhost"] "websocket" (some "http://evil.example") =
        Except.ok () :=
  ⟨by decide, non_http_scope_forwarded "websocket" (by decide) ["localhost"]
    (some "http://evil.example")⟩

/--
C4: the role gate returns true iff the lower-cased required role is a
member of the identity's lower-cased role-claim set; an identity whose
claims lack the realm-access structure entirely, or whose realm-access
carries no roles entry, yields false (the gate is a total function, so it
never raises); and the design document's examples hold.
-/
theorem has_role_matches_spec :
    (∀ (r : String) (ctx : AuthContext), has_role r ctx = authorizeSpec r (claimRoles ctx)) ∧
    (∀ r : String, has_role r ⟨⟨⟨none⟩⟩⟩ = false) ∧
    (∀ r : String, has_role r ⟨⟨⟨some ⟨none⟩⟩⟩⟩ = false) ∧
    has_role "mcp_write" ⟨⟨⟨some ⟨some ["mcp_read"]⟩⟩⟩⟩ = false ∧
    has_role "mcp_write" ⟨⟨⟨some ⟨some ["mcp_read", "mcp_write"]⟩⟩⟩⟩ = true := by
  refine ⟨fun r ctx => rfl, fun r => ?_, fun r => ?_, by decide, by decide⟩
  · simp [has_role, claimRoles]
  · simp [has_role, claimRoles]

/--
C5 counterexample: `delete_note` pattern-matches only the three defined
elicitation outcomes and has no wildcard case, so on a protocol-level
malformed outcome it produces no response at all (Python's implicit
`None`), not the claimed error response reporting an invalid confirmation
response.
-/
theorem delete_note_malformed_returns_none :
    (delete_note_route "urgent" (ElicitOutcome.malformed "unknown" none)
        (some ["buy milk\n", "urgent: call bob\n"])).response = none ∧
    (delete_note_route "urgent" (ElicitOutcome.malformed "unknown" none)
        (some ["buy milk\n", "urgent: call bob\n"])).response ≠
      some { status := "error", message := "Invalid confirmation response." } := by
  refine ⟨rfl, by decide⟩

/--
C5 amended: for both guarded delete operations, Declined, Cancelled and
Accepted(false) all surface as a "cancelled" response; a malformed
outcome yields the "Invalid confirmation response." error for
`delete_all_notes`, while `delete_note` returns no response at all on a
malformed outcome.
-/
theorem elicitation_response_shaping (fs : Option (List String)) (t : String)
    (a : String) (d : Option Bool)
    (h1 : a ≠ "accept") (h2 : a ≠ "decline") (h3 : a ≠ "cancel") :
    (delete_all_notes_route .declined fs).response =
      some { status := "cancelled", message := "Deletion declined by user." } ∧
    (delete_all_notes_route .cancelled fs).response =
      some { status := "cancelled", message := "Deletion cancelled by user." } ∧
    (delete_all_notes_route (.accepted (some false)) fs).response =
      some { status := "cancelled", message := "Deletion not confirmed by user." } ∧
    (delete_all_notes_route (.malformed a d) fs).response =
      some { status := "error", message := "Invalid confirmation response." } ∧
    (delete_note_route t .declined fs).response =
      some { status := "cancelled", message := "Deletion declined by user." } ∧
    (delete_note_route t .cancelled fs).response =
      some { status := "cancelled", message := "Deletion cancelled by user." } ∧
    (delete_note_route t (.accepted (some false)) fs).response =
      some { status := "cancelled", message := "Deletion declined by user." } ∧
    (delete_note_route t (.malformed a d) fs).response = none := by
  refine ⟨rfl, rfl, rfl, ?_, rfl, rfl, rfl, rfl⟩
  simp [delete_all_notes_route, ElicitOutcome.action, ElicitOutcome.payload, h1, h2, h3]

/-- Witness for the response-shaping theorem at a concrete malformed
outcome. -/
theorem elicitation_response_shaping_witness :
    ("weird" ≠ "accept" ∧ "weird" ≠ "decline" ∧ "weird" ≠ "cancel") ∧
    (delete_all_notes_route (ElicitOutcome.malformed "weird" none) (some [])).response =
      some { status := "error", message := "Invalid confirmation response." } :=
  ⟨⟨by decide, by decide, by decide⟩,
   (elicitation_response_shaping (some []) "x" "weird" none (by decide) (by decide)
     (by decide)).2.2.2.1⟩

/--
C6: for both guarded delete operations, the note-service side effect runs
at most once per elicitation round-trip, runs exactly when the outcome is
Accepted with confirming value true, and the notes file is untouched in
every other case (Declined, Cancelled, Accepted(false), malformed).
-/
theorem guarded_effect_only_on_accept_true (e : ElicitOutcome)
    (fs : Option (List String)) (t : String) (hwf : e.wf) :
    ((delete_all_notes_route e fs).serviceCalls ≤ 1 ∧
      ((delete_all_notes_route e fs).serviceCalls = 1 ↔ e = .accepted (some true)) ∧
      (e ≠ .accepted (some true) → (delete_all_notes_route e fs).fileState = fs)) ∧
    ((delete_note_route t e fs).serviceCalls ≤ 1 ∧
      ((delete_note_route t e fs).serviceCalls = 1 ↔ e = .accepted (some true)) ∧
      (e ≠ .accepted (some true) → (delete_note_route t e fs).fileState = fs)) := by
  cases e with
  | accepted d =>
      cases d with
      | none =>
          simp [delete_all_notes_route, delete_note_route, ElicitOutcome.action,
            ElicitOutcome.payload]
      | some b =>
          cases b with
          | true =>
              simp [delete_all_notes_route, delete_note_route, ElicitOutcome.action,
                ElicitOutcome.payload]
          | false =>
              simp [delete_all_notes_route, delete_note_route, ElicitOutcome.action,
                ElicitOutcome.payload]
  | declined =>
      simp [delete_all_notes_route, delete_note_route, ElicitOutcome.action,
        ElicitOutcome.payload]
  | cancelled =>
      simp [delete_all_notes_route, delete_note_route, ElicitOutcome.action,
        ElicitOutcome.payload]
  | malformed a d =>
      obtain ⟨h1, h2, h3⟩ := hwf
      simp [delete_all_notes_route, delete_note_route, ElicitOutcome.action,
        ElicitOutcome.payload, h1, h2, h3]

/-- Witness for the guarded-effect theorem at a concrete declined
outcome. -/
theorem guarded_effect_only_on_accept_true_witness :
    ElicitOutcome.wf ElicitOutcome.declined ∧
      (delete_all_notes_route ElicitOutcome.declined (some [])).serviceCalls ≤ 1 :=
  ⟨trivial,
    (guarded_effect_only_on_accept_true ElicitOutcome.declined (some []) "x" trivial).1.1⟩

/-- The lengths of the two complementary filterings of a list add up to
its length. -/
theorem filter_length_split (p q : String → Bool) (hq : ∀ x, q x = !(p x))
    (L : List String) : (L.filter p).length + (L.filter q).length = L.length := by
  induction L with
  | nil => rfl
  | cons a T ih =>
      cases hpa : p a with
      | true =>
          simp [List.filter_cons, hpa, hq a]
          omega
      | false =>
          simp [List.filter_cons, hpa, hq a]
          omega

/--
C7: when the notes file exists with lines L, `delete_notes_containing t`
reports success, rewrites the file to exactly the lines of L that do not
contain t (in order, as a filter), and reports as deleted the number of
lines of L that contain t; on the design document's example store the
"urgent" line is the single deletion.
-/
theorem delete_notes_containing_spec (L : List String) (t : String) :
    ((NoteService.delete_notes_containing t (some L)).1.status = "success" ∧
     (NoteService.delete_notes_containing t (some L)).1.deleted =
       some (L.countP fun line => strContains line t) ∧
     (NoteService.delete_notes_containing t (some L)).2 =
       some (L.filter fun line => !(strContains line t))) ∧
    ((NoteService.delete_notes_containing "urgent"
        (some ["buy milk\n", "urgent: call bob\n"])).1.deleted = some 1 ∧
     (NoteService.delete_notes_containing "urgent"
        (some ["buy milk\n", "urgent: call bob\n"])).2 = some ["buy milk\n"]) := by
  refine ⟨⟨rfl, ?_, rfl⟩, by decide, by decide⟩
  simp only [NoteService.delete_notes_containing]
  rw [List.countP_eq_length_filter]
  have h := filter_length_split (fun line => strContains line t)
    (fun line => !(strContains line t)) (fun x => rfl) L
  congr 1
  omega

/-!
Helper lemmas for the key-derivation claim.
-/

theorem sha256Bytes_length (m : List Nat) : (sha256Bytes m).length = 32 := rfl

theorem sha256Bytes_bound (m : List Nat) : ∀ b ∈ sha256Bytes m, b < 256 := by
  intro b hb
  simp only [sha256Bytes, List.mem_cons, List.not_mem_nil, or_false] at hb
  rcases hb with rfl | rfl | rfl | rfl | rfl | rfl | rfl | rfl | rfl | rfl | rfl | rfl |
    rfl | rfl | rfl | rfl | rfl | rfl | rfl | rfl | rfl | rfl | rfl | rfl | rfl | rfl |
    rfl | rfl | rfl | rfl | rfl | rfl
  all_goals exact Nat.mod_lt _ (by omega)

theorem digestNat_lt (l : List Nat) (hb : ∀ b ∈ l, b < 256) :
    digestNat l < 256 ^ l.length := by
  induction l with
  | nil => simp [digestNat]
  | cons b t ih =>
      have hbb : b < 256 := hb b (by simp)
      have ht := ih fun x hx => hb x (by simp [hx])
      simp only [digestNat, List.foldr_cons] at *
      rw [List.length_cons, pow_succ]
      omega

theorem digestNat_inj (l1 l2 : List Nat) (hlen : l1.length = l2.length)
    (h1 : ∀ b ∈ l1, b < 256) (h2 : ∀ b ∈ l2, b < 256)
    (he : digestNat l1 = digestNat l2) : l1 = l2 := by
  induction l1 generalizing l2 with
  | nil =>
      cases l2 with
      | nil => rfl
      | cons c u => simp at hlen
  | cons b t ih =>
      cases l2 with
      | nil => simp at hlen
      | cons c u =>
          simp only [digestNat, List.foldr_cons] at he
          have hb : b < 256 := h1 b (by simp)
          have hc : c < 256 := h2 c (by simp)
          have hbc : b = c ∧
              (t.foldr (fun b acc => b + 256 * acc) 0 : Nat) =
                u.foldr (fun b acc => b + 256 * acc) 0 := by omega
          obtain ⟨rfl, hdu⟩ := hbc
          have ht : t = u := by
            refine ih u (by simpa using hlen) (fun x hx => h1 x (by simp [hx]))
              (fun x hx => h2 x (by simp [hx])) ?_
            simpa only [digestNat] using hdu
          rw [ht]

theorem aString_injective (m n : Nat) (h : m ≠ n) : aString m ≠ aString n := by
  intro he
  apply h
  have hl := congrArg (fun s : String => s.data.length) he
  simpa [aString] using hl

/--
C8 counterexample: the universal distinctness clause of the claim is
impossible for any fixed-length digest — the key-derivation function maps
the infinitely many secrets into the finitely many 32-byte SHA-256
digests, so by pigeonhole two distinct secrets share a key.
-/
theorem derive_fernet_key_not_injective :
    ¬ ∀ s1 s2 : String, s1 ≠ s2 →
        Config.derive_fernet_key s1 ≠ Config.derive_fernet_key s2 := by
  intro H
  have hbound : ∀ n : Nat, digestNat (sha256Bytes (utf8Encode (aString n))) < 2 ^ 256 := by
    intro n
    have h := digestNat_lt _ (sha256Bytes_bound (utf8Encode (aString n)))
    rw [sha256Bytes_length] at h
    calc digestNat (sha256Bytes (utf8Encode (aString n))) < 256 ^ 32 := h
      _ = 2 ^ 256 := by norm_num
  obtain ⟨m, n, hmn, hfe⟩ := Finite.exists_ne_map_eq_of_infinite
    (fun k : Nat =>
      (⟨digestNat (sha256Bytes (utf8Encode (aString k))), hbound k⟩ : Fin (2 ^ 256)))
  have hdig : sha256Bytes (utf8Encode (aString m)) = sha256Bytes (utf8Encode (aString n)) :=
    digestNat_inj _ _ (by rw [sha256Bytes_length, sha256Bytes_length])
      (sha256Bytes_bound _) (sha256Bytes_bound _) (Fin.mk.inj hfe)
  exact H (aString m) (aString n) (aString_injective m n hmn)
    (congrArg urlsafe_b64encode hdig)

/--
C8 amended: key derivation is the pure function base64-url-encoding the
32-byte SHA-256 digest of the UTF-8 encoded secret; it is deterministic
(a function of the secret alone, so processes sharing the secret derive
identical keys) and every derived key has the same fixed length of 44
characters.  Distinctness of keys for distinct secrets holds only up to
SHA-256 collision resistance, not universally.
-/
theorem urlsafe_b64encode_length :
    ∀ l : List Nat, (urlsafe_b64encode l).length = ((l.length + 2) / 3) * 4
  | [] => by decide
  | [b1] => by simp [urlsafe_b64encode]
  | [b1, b2] => by simp [urlsafe_b64encode]
  | b1 :: b2 :: b3 :: rest => by
      have ih := urlsafe_b64encode_length rest
      simp only [urlsafe_b64encode, List.length_cons, ih]
      omega

theorem derive_fernet_key_deterministic_fixed_length (s : String) :
    Config.derive_fernet_key s = urlsafe_b64encode (sha256Bytes (utf8Encode s)) ∧
    (sha256Bytes (utf8Encode s)).length = 32 ∧
    (Config.derive_fernet_key s).length = 44 := by
  refine ⟨rfl, rfl, ?_⟩
  show (urlsafe_b64encode (sha256Bytes (utf8Encode s))).length = 44
  rw [urlsafe_b64encode_length, sha256Bytes_length]

/-!
Lemmas and theorems for the modelled encryption unit.
-/

theorem xorStream_involution (key : List Nat) (i : Nat) (p : List Nat) :
    xorStream key i (xorStream key i p) = p := by
  induction p generalizing i with
  | nil => rfl
  | cons b t ih =>
      simp only [xorStream]
      rw [Nat.xor_assoc, Nat.xor_self, Nat.xor_zero, ih (i + 1)]

/--
C9: over the modelled authenticated cipher, encryption round-trips
exactly for every key and payload; decrypting under a different key fails
with `DecryptionError`; decrypting a ciphertext whose body was tampered
with fails with `DecryptionError`; and the encrypted store wrapper
surfaces a `DecryptionError` from decryption upward unmodified.
-/
theorem fernet_model_contract :
    (∀ key p : List Nat, FernetModel.decrypt key (FernetModel.encrypt key p) =
      Except.ok p) ∧
    (∀ key1 key2 p : List Nat, key1 ≠ key2 →
      FernetModel.decrypt key2 (FernetModel.encrypt key1 p) =
        Except.error DecryptionError.decryptionError) ∧
    (∀ key p body2 : List Nat, body2 ≠ (FernetModel.encrypt key p).body →
      FernetModel.decrypt key { body := body2, tag := (FernetModel.encrypt key p).tag } =
        Except.error DecryptionError.decryptionError) ∧
    (∀ (store : String → Option FernetToken) (key : List Nat) (k : String)
        (c : FernetToken) (e : DecryptionError), store k = some c →
      FernetModel.decrypt key c = Except.error e →
      FernetEncryptionWrapper.get store key k = Except.error e) := by
  refine ⟨?_, ?_, ?_, ?_⟩
  · intro key p
    unfold FernetModel.decrypt FernetModel.encrypt
    rw [if_pos rfl]
    rw [xorStream_involution]
  · intro key1 key2 p hne
    unfold FernetModel.decrypt FernetModel.encrypt
    rw [if_neg (by simp only [Prod.mk.injEq]; exact fun h => hne h.1)]
  · intro key p body2 hne
    unfold FernetModel.decrypt
    rw [if_neg (by
      simp only [FernetModel.encrypt, Prod.mk.injEq]
      exact fun h => hne h.2.symm)]
  · intro store key k c e hs hd
    simp [FernetEncryptionWrapper.get, hs, hd]

/-- Witness for the modelled-cipher theorem at concrete keys and
payload. -/
theorem fernet_model_contract_witness :
    (([1, 2] : List Nat) ≠ [3]) ∧
    FernetModel.decrypt [1, 2] (FernetModel.encrypt [1, 2] [7, 8, 9]) =
      Except.ok [7, 8, 9] ∧
    FernetModel.decrypt [3] (FernetModel.encrypt [1, 2] [7, 8, 9]) =
      Except.error DecryptionError.decryptionError :=
  ⟨by decide, fernet_model_contract.1 [1, 2] [7, 8, 9],
    fernet_model_contract.2.1 [1, 2] [3] [7, 8, 9] (by decide)⟩

end NoteMgr
